import Mathlib

/-!
Verification of the query-string builder in
`src/frontend/src/api-utils/query-utils.ts`.

The module under verification exposes three functions:

* `query(queryContent)`   — wraps content in `query { ... }`;
* `entry(entityName, fields, id?)` — single-entry request;
* `collection(entityName, fields, filter?, sort?, pagination?, paginationResponse?)`
  — collection request with optional filter/sort/pagination parameters and an
  optional pagination-metadata block.

The embedding below mirrors the TypeScript source.  Strings are modelled by
Lean `String` (a wrapper around `List Char`); JavaScript template literals are
modelled by string concatenation; JavaScript truthiness of the optional
parameters is modelled explicitly (`0` and `""` are falsy, any object is
truthy).  `JSON.stringify` and the regex replacement
`/"([^"]+)":/g → "$1:"` are modelled character-by-character.
-/

namespace QueryUtils

/-! ### JSON values

The `filter` argument of `collection` has type `{ [k: string]: Filter }` where
`Filter` is imported from `./models/filter-models` (not part of the reviewed
sources).  Modelled from the spec: a Filter is "a mapping from field name or
logical-operator name to a filter expression (recursively structured)"; such
recursively structured objects, together with the numeric `Pagination` record
and the string/string-array `sort`, are all values that `JSON.stringify` can
serialize, so we model them inside a single JSON value type. -/

mutual
inductive Json where
  | str (s : String)
  | num (n : Int)
  | jbool (b : Bool)
  | jnull
  | arr (xs : JsonArr)
  | obj (kvs : JsonObj)
  deriving DecidableEq
inductive JsonArr where
  | nil
  | cons (hd : Json) (tl : JsonArr)
  deriving DecidableEq
inductive JsonObj where
  | nil
  | cons (key : String) (val : Json) (tl : JsonObj)
  deriving DecidableEq
end

/-! ### Decimal rendering of numbers

`JSON.stringify(7) = "7"`, `` `${-5}` = "-5" `` — JavaScript renders integral
numbers in decimal.  `natReprGo` produces the decimal digits of a natural
number (fuel-based so that it reduces in the kernel; fuel `n` is always
sufficient because the number of digits of `n` is at most `n`). -/

def natReprGo : Nat → Nat → List Char → List Char
  | 0, n, acc => Char.ofNat (48 + n % 10) :: acc
  | fuel + 1, n, acc =>
    if n < 10 then Char.ofNat (48 + n % 10) :: acc
    else natReprGo fuel (n / 10) (Char.ofNat (48 + n % 10) :: acc)

def natReprChars (n : Nat) : List Char := natReprGo n n []

def intReprChars (i : Int) : List Char :=
  if i < 0 then '-' :: natReprChars i.natAbs else natReprChars i.toNat

def intRepr (i : Int) : String := ⟨intReprChars i⟩

/-! ### JSON.stringify

`JSON.stringify` escapes `"` and `\` inside strings and emits objects and
arrays compactly (no whitespace), with `"key":value` pairs joined by `,`.
(Control-character escaping is not modelled: no claim exercises it.) -/

def escChars : List Char → List Char
  | [] => []
  | c :: rest =>
    if c = '"' then '\\' :: '"' :: escChars rest
    else if c = '\\' then '\\' :: '\\' :: escChars rest
    else c :: escChars rest

def quoteChars (l : List Char) : List Char := '"' :: (escChars l ++ ['"'])

mutual
def jsonStringifyData : Json → List Char
  | Json.str s => quoteChars s.data
  | Json.num n => intReprChars n
  | Json.jbool b => if b then "true".data else "false".data
  | Json.jnull => "null".data
  | Json.arr xs => '[' :: (jsonArrBody xs ++ [']'])
  | Json.obj kvs => '\x7b' :: (jsonObjBody kvs ++ ['\x7d'])
def jsonArrBody : JsonArr → List Char
  | JsonArr.nil => []
  | JsonArr.cons x JsonArr.nil => jsonStringifyData x
  | JsonArr.cons x (JsonArr.cons y tl) =>
    jsonStringifyData x ++ ',' :: jsonArrBody (JsonArr.cons y tl)
def jsonObjBody : JsonObj → List Char
  | JsonObj.nil => []
  | JsonObj.cons k v JsonObj.nil => quoteChars k.data ++ ':' :: jsonStringifyData v
  | JsonObj.cons k v (JsonObj.cons k2 v2 tl) =>
    quoteChars k.data ++ ':' :: jsonStringifyData v
      ++ ',' :: jsonObjBody (JsonObj.cons k2 v2 tl)
end

def jsonStringify (v : Json) : String := ⟨jsonStringifyData v⟩

/-! ### The spec-side serializer (for the refinement claim C2)

Modelled from the spec: "serialized to a JSON-like literal with outer
property-name quoting stripped (e.g. `{name: "shop"}` rather than
`{"name": "shop"}`) — string *values* retain their quotes; only JSON
object-key quoting is removed" (§4.1).  `gqlStringifyData` emits object keys
verbatim and unquoted; everything else is serialized exactly as
`JSON.stringify` does. -/

mutual
def gqlStringifyData : Json → List Char
  | Json.str s => quoteChars s.data
  | Json.num n => intReprChars n
  | Json.jbool b => if b then "true".data else "false".data
  | Json.jnull => "null".data
  | Json.arr xs => '[' :: (gqlArrBody xs ++ [']'])
  | Json.obj kvs => '\x7b' :: (gqlObjBody kvs ++ ['\x7d'])
def gqlArrBody : JsonArr → List Char
  | JsonArr.nil => []
  | JsonArr.cons x JsonArr.nil => gqlStringifyData x
  | JsonArr.cons x (JsonArr.cons y tl) =>
    gqlStringifyData x ++ ',' :: gqlArrBody (JsonArr.cons y tl)
def gqlObjBody : JsonObj → List Char
  | JsonObj.nil => []
  | JsonObj.cons k v JsonObj.nil => k.data ++ ':' :: gqlStringifyData v
  | JsonObj.cons k v (JsonObj.cons k2 v2 tl) =>
    k.data ++ ':' :: gqlStringifyData v
      ++ ',' :: gqlObjBody (JsonObj.cons k2 v2 tl)
end

def gqlStringify (v : Json) : String := ⟨gqlStringifyData v⟩

/-! ### The regex replacement `/"([^"]+)":/g → "$1:"`

The source removes JSON key quoting by
`JSON.stringify(x)?.replace(/"([^"]+)":/g, "$1:")`.
The pattern matches a `"`, then one or more non-`"` characters, then the two
characters `":`; the replacement keeps the captured run and the final `:`.
A global replace scans left to right: at each position it tries to match;
on success it continues after the match, on failure it advances one
character.  Because `[^"]+` cannot cross a quote, a match attempt starting at
a `"` succeeds exactly when the run of characters up to the *next* `"` is
nonempty and that next `"` is immediately followed by `:`.

`takeToQuote l` splits `l` at its first `"` (returning the characters before
it and the characters after it).  `stripFuel` performs the scan; fuel
`l.length` is always sufficient since every step consumes at least one
character. -/

def takeToQuote : List Char → Option (List Char × List Char)
  | [] => none
  | c :: rest =>
    if c = '"' then some ([], rest)
    else (takeToQuote rest).map (fun p => (c :: p.1, p.2))

def stripFuel : Nat → List Char → List Char
  | _, [] => []
  | 0, l => l
  | fuel + 1, c :: rest =>
    if c = '"' then
      match takeToQuote rest with
      | none => '"' :: stripFuel fuel rest
      | some (_, []) => '"' :: stripFuel fuel rest
      | some (content, a :: after) =>
        if a = ':' ∧ content ≠ [] then content ++ ':' :: stripFuel fuel after
        else '"' :: stripFuel fuel rest
    else c :: stripFuel fuel rest

def stripKeyQuotesData (l : List Char) : List Char := stripFuel l.length l

def stripKeyQuotes (s : String) : String := ⟨stripKeyQuotesData s.data⟩

/-! ### The builder functions (query-utils.ts) -/

/-- Modelled from the spec: `Pagination` is "a small record of numeric
options (e.g., page index, page size)" (§3); its definition file
`./models/pagination-models` is not part of the reviewed sources.  We model
it as an ordered record of named integers, serialized as a JSON object. -/
def Pagination : Type := List (String × Int)

/-- The `sort` parameter: `string | string[]`. -/
def SortSpec : Type := String ⊕ List String

/-- Modelled from the spec: `PaginationResponse` is "a mapping from
pagination-metadata field name to a boolean" (§3); its definition file is not
part of the reviewed sources.  Modelled as an ordered association list
(JavaScript object keys enumerate in insertion order). -/
def PaginationResponse : Type := List (String × Bool)

def pagToObj : List (String × Int) → JsonObj
  | [] => JsonObj.nil
  | (k, n) :: tl => JsonObj.cons k (Json.num n) (pagToObj tl)

def strListToArr : List String → JsonArr
  | [] => JsonArr.nil
  | s :: tl => JsonArr.cons (Json.str s) (strListToArr tl)

def sortToJson : String ⊕ List String → Json
  | Sum.inl s => Json.str s
  | Sum.inr l => Json.arr (strListToArr l)

/-- JavaScript truthiness of the `sort` parameter: `undefined` and the empty
string are falsy; any nonempty string and any array (even empty) are truthy. -/
def sortTruthy : Option SortSpec → Bool
  | none => false
  | some (Sum.inl s) => !(s == "")
  | some (Sum.inr _) => true

/-- `function query(queryContent) { return `query { ${queryContent} }`; }` -/
def query (queryContent : String) : String :=
  "query \x7b " ++ queryContent ++ " \x7d"

/-- `function data(fields) { return `data { id attributes { ${fields.join(" ")} } }`; }` -/
def data (fields : List String) : String :=
  "data \x7b id attributes \x7b " ++ String.intercalate " " fields ++ " \x7d \x7d"

/-- `function entryName(entityName, id) { return `${entityName}${id ? `(id: ${id})` : ""}`; }`
The `id` parameter is an optional number; `id ? … : ""` tests JavaScript
truthiness, so `0` (falsy) produces no clause. -/
def entryName (entityName : String) (id : Option Int) : String :=
  entityName ++
    (match id with
     | some i => if i = 0 then "" else "(id: " ++ intRepr i ++ ")"
     | none => "")

/-- `function entry(entityName, fields, id) { return `${entryName(entityName, id)} { ${data(fields)} }`; }` -/
def entry (entityName : String) (fields : List String) (id : Option Int) : String :=
  entryName entityName id ++ " \x7b " ++ data fields ++ " \x7d"

/-- The template hole `${filter ? `filters: ${filterString}, ` : ""}` of
`collectionName`, where `filterString` is
`JSON.stringify(filter)?.replace(/"([^"]+)":/g, "$1:")`.  A supplied filter
object is always truthy. -/
def filterClause : Option JsonObj → String
  | some f => "filters: " ++ stripKeyQuotes (jsonStringify (Json.obj f)) ++ ", "
  | none => ""

/-- The template hole `${pagination ? `pagination: ${paginationString}, ` : ""}`
of `collectionName`.  A supplied pagination object is always truthy. -/
def paginationClause : Option Pagination → String
  | some p => "pagination: " ++ stripKeyQuotes (jsonStringify (Json.obj (pagToObj p))) ++ ", "
  | none => ""

/-- The template hole `${sort ? `sort: ${sortString}, ` : ""}` of
`collectionName`; `sort` is a string or array, so its truthiness is
`sortTruthy`. -/
def sortClause : Option SortSpec → String
  | some s =>
    if sortTruthy (some s) then
      "sort: " ++ stripKeyQuotes (jsonStringify (sortToJson s)) ++ ", "
    else ""
  | none => ""

/-- `function collectionName(entityName, filter, pagination, sort)`:
serializes each supplied parameter with
`JSON.stringify(x)?.replace(/"([^"]+)":/g, "$1:")`, computes
`needsBraces = filter || pagination || sort` (JavaScript truthiness), and
emits `entityName(filters: …, pagination: …, sort: …)` with each clause
guarded by its own parameter's truthiness. -/
def collectionName (entityName : String) (filter : Option JsonObj)
    (pagination : Option Pagination) (sort : Option SortSpec) : String :=
  let needsBraces := filter.isSome || pagination.isSome || sortTruthy sort
  entityName
    ++ (if needsBraces then "(" else "")
    ++ filterClause filter
    ++ paginationClause pagination
    ++ sortClause sort
    ++ (if needsBraces then ")" else "")

/-- `function collection(entityName, fields, filter, sort, pagination, paginationResponse)`:
`paginationResponseString` is the space-join of the keys of
`paginationResponse` whose value is true (in insertion order); the result is
`` `${collectionName(…)} { ${data(fields)} ${paginationResponse ? `meta { pagination { ${paginationResponseString} } }` : ""} }` ``. -/
def collection (entityName : String) (fields : List String)
    (filter : Option JsonObj) (sort : Option SortSpec)
    (pagination : Option Pagination)
    (paginationResponse : Option PaginationResponse) : String :=
  collectionName entityName filter pagination sort
    ++ " \x7b " ++ data fields ++ " "
    ++ (match paginationResponse with
        | some pr =>
          "meta \x7b pagination \x7b "
            ++ String.intercalate " " (((pr.filter (fun kv => kv.2)).map (fun kv => kv.1)))
            ++ " \x7d \x7d"
        | none => "")
    ++ " \x7d"

/-! ### Cleanliness predicates

The regex hack corrupts serialized string contents that contain `"` (the
spec's §9 "known fragility") and fails to unquote empty keys.  `cleanJson`
captures the well-formed inputs for which the key-unquoting contract holds:
every object key is nonempty, no key or string leaf contains `"` or `\`, and
no key or string leaf starts with `:`. -/

def cleanChars (l : List Char) : Bool := l.all (fun c => c != '"' && c != '\\')

def notColonLead : List Char → Bool
  | [] => true
  | c :: _ => c != ':'

mutual
def cleanJson : Json → Bool
  | Json.str s => cleanChars s.data && notColonLead s.data
  | Json.num _ => true
  | Json.jbool _ => true
  | Json.jnull => true
  | Json.arr xs => cleanArr xs
  | Json.obj kvs => cleanObj kvs
def cleanArr : JsonArr → Bool
  | JsonArr.nil => true
  | JsonArr.cons x tl => cleanJson x && cleanArr tl
def cleanObj : JsonObj → Bool
  | JsonObj.nil => true
  | JsonObj.cons k v tl =>
    !(k.data.isEmpty) && cleanChars k.data && notColonLead k.data
      && cleanJson v && cleanObj tl
end

/-! ### Substring test (used to state containment claims) -/

def leadsWith : List Char → List Char → Bool
  | [], _ => true
  | _ :: _, [] => false
  | p :: ps, t :: ts => p == t && leadsWith ps ts

def hasSubstrData : List Char → List Char → Bool
  | [], pat => leadsWith pat []
  | c :: rest, pat => leadsWith pat (c :: rest) || hasSubstrData rest pat

def hasSubstr (s pat : String) : Bool := hasSubstrData s.data pat.data

/-- `noLeadMatch l` says: a regex-match attempt starting at a `"` placed just
before `l` cannot succeed, because the first `"` inside `l` (if any) is not
immediately followed by `:`. -/
def noLeadMatch (l : List Char) : Prop :=
  ∀ content after, takeToQuote l = some (content, after) → notColonLead after = true

/-! ### Concrete example inputs from the spec -/

/-- The filter `{name: {eq: "shop"}}` used in the spec's testable properties. -/
def exFilter : JsonObj :=
  JsonObj.cons "name" (Json.obj (JsonObj.cons "eq" (Json.str "shop") JsonObj.nil)) JsonObj.nil

/-- A filter whose string value contains the two characters `":`; such values
trigger the regex fragility. -/
def evilFilter : JsonObj :=
  JsonObj.cons "k" (Json.str "x\":y") JsonObj.nil

/-- The pagination-response flags `{total: true, pageCount: false}`. -/
def exFlags : PaginationResponse := [("total", true), ("pageCount", false)]

/-! ## Helper lemmas -/

theorem strExt {s t : String} (h : s.data = t.data) : s = t := by
  cases s; cases t; exact congrArg String.mk h

theorem dataApp (s t : String) : (s ++ t).data = s.data ++ t.data := rfl

theorem mkData (l : List Char) : (String.mk l).data = l := rfl

/-! ### takeToQuote -/

theorem takeToQuote_quoteFree_append (pre post : List Char) (h : ∀ c ∈ pre, c ≠ '"') :
    takeToQuote (pre ++ '"' :: post) = some (pre, post) := by
  induction pre with
  | nil => simp [takeToQuote]
  | cons c cs ih =>
    have hc : c ≠ '"' := h c (by simp)
    have ih2 := ih (fun d hd => h d (by simp [hd]))
    simp [takeToQuote, hc, ih2]

theorem takeToQuote_length {l content after : List Char}
    (h : takeToQuote l = some (content, after)) : after.length < l.length := by
  induction l generalizing content after with
  | nil => simp [takeToQuote] at h
  | cons c rest ih =>
    by_cases hc : c = '"'
    · simp only [takeToQuote, if_pos hc, Option.some.injEq, Prod.mk.injEq] at h
      obtain ⟨_, h2⟩ := h
      subst h2
      simp
    · simp only [takeToQuote, if_neg hc] at h
      cases h2 : takeToQuote rest with
      | none => rw [h2] at h; simp at h
      | some p =>
        rw [h2] at h
        simp only [Option.map_some', Option.some.injEq, Prod.mk.injEq] at h
        obtain ⟨_, h4⟩ := h
        have h5 := ih (show takeToQuote rest = some (p.1, p.2) by rw [h2])
        subst h4
        simp only [List.length_cons]
        omega

/-! ### Fuel irrelevance and unfolding lemmas for the regex scan -/

theorem stripFuel_irrel (m : Nat) :
    ∀ (n : Nat) (l : List Char), l.length ≤ m → l.length ≤ n →
      stripFuel m l = stripFuel n l := by
  induction m with
  | zero =>
    intro n l hm _
    have : l = [] := List.eq_nil_of_length_eq_zero (Nat.le_zero.mp hm)
    subst this
    cases n <;> simp [stripFuel]
  | succ m ih =>
    intro n l hm hn
    cases l with
    | nil => cases n <;> simp [stripFuel]
    | cons c rest =>
      cases n with
      | zero => simp at hn
      | succ n' =>
        simp only [List.length_cons, Nat.add_le_add_iff_right] at hm hn
        by_cases hc : c = '"'
        · cases h2 : takeToQuote rest with
          | none => simp only [stripFuel, if_pos hc, h2]; rw [ih n' rest hm hn]
          | some p =>
            obtain ⟨content, after⟩ := p
            cases after with
            | nil => simp [stripFuel, hc, h2, ih n' rest hm hn]
            | cons a after' =>
              by_cases h3 : a = ':' ∧ content ≠ []
              · have h4 := takeToQuote_length h2
                simp only [List.length_cons] at h4
                simp [stripFuel, hc, h2, h3, ih n' after' (by omega) (by omega)]
              · simp [stripFuel, hc, h2, h3, ih n' rest hm hn]
        · simp only [stripFuel, if_neg hc]
          rw [ih n' rest hm hn]

theorem stripData_nil : stripKeyQuotesData [] = [] := rfl

theorem stripData_cons {c : Char} (l : List Char) (hc : c ≠ '"') :
    stripKeyQuotesData (c :: l) = c :: stripKeyQuotesData l := by
  simp [stripKeyQuotesData, stripFuel, hc]

theorem stripData_match {rest content after : List Char}
    (h : takeToQuote rest = some (content, ':' :: after)) (hne : content ≠ []) :
    stripKeyQuotesData ('"' :: rest) = content ++ ':' :: stripKeyQuotesData after := by
  have hlen := takeToQuote_length h
  simp only [List.length_cons] at hlen
  have hfi := stripFuel_irrel rest.length after.length after (by omega) (le_refl _)
  simp [stripKeyQuotesData, stripFuel, h, hne, hfi]

theorem stripData_nomatch {rest : List Char} (h : noLeadMatch rest) :
    stripKeyQuotesData ('"' :: rest) = '"' :: stripKeyQuotesData rest := by
  cases h2 : takeToQuote rest with
  | none => simp [stripKeyQuotesData, stripFuel, h2]
  | some p =>
    obtain ⟨content, after⟩ := p
    cases after with
    | nil => simp [stripKeyQuotesData, stripFuel, h2]
    | cons a after' =>
      have h3 := h content (a :: after') h2
      simp only [notColonLead] at h3
      have h4 : ¬(a = ':' ∧ content ≠ []) := by
        intro h5
        rw [h5.1] at h3
        simp at h3
      simp [stripKeyQuotesData, stripFuel, h2, h4]

theorem stripData_quoteFree_append {l : List Char} (t : List Char)
    (hq : ∀ c ∈ l, c ≠ '"') :
    stripKeyQuotesData (l ++ t) = l ++ stripKeyQuotesData t := by
  induction l with
  | nil => simp
  | cons c cs ih =>
    have hc : c ≠ '"' := hq c (by simp)
    simp only [List.cons_append, stripData_cons _ hc,
      ih (fun d hd => hq d (by simp [hd]))]

/-! ### noLeadMatch -/

theorem noLeadMatch_nil : noLeadMatch [] := by
  intro content after h
  simp [takeToQuote] at h

theorem noLeadMatch_cons {c : Char} {l : List Char} (hc : c ≠ '"')
    (h : noLeadMatch l) : noLeadMatch (c :: l) := by
  intro content after h2
  simp only [takeToQuote, if_neg hc] at h2
  cases h3 : takeToQuote l with
  | none => rw [h3] at h2; simp at h2
  | some p =>
    rw [h3] at h2
    simp only [Option.map_some', Option.some.injEq, Prod.mk.injEq] at h2
    obtain ⟨_, h5⟩ := h2
    exact h5 ▸ h p.1 p.2 (by rw [h3])

theorem noLeadMatch_quoteFree_append {l : List Char} {t : List Char}
    (hq : ∀ c ∈ l, c ≠ '"') (h : noLeadMatch t) : noLeadMatch (l ++ t) := by
  induction l with
  | nil => simpa using h
  | cons c cs ih =>
    exact List.cons_append c cs t ▸
      noLeadMatch_cons (hq c (by simp)) (ih (fun d hd => hq d (by simp [hd])))

theorem noLeadMatch_of_take {l content after : List Char}
    (h : takeToQuote l = some (content, after)) (hn : notColonLead after = true) :
    noLeadMatch l := by
  intro c a h2
  rw [h] at h2
  simp only [Option.some.injEq, Prod.mk.injEq] at h2
  exact h2.2 ▸ hn

/-! ### Character cleanliness -/

theorem cleanChars_props {l : List Char} (h : cleanChars l = true) :
    ∀ c ∈ l, c ≠ '"' ∧ c ≠ '\\' := by
  intro c hc
  have h2 := List.all_eq_true.mp h c hc
  simp only [bne_iff_ne, ne_eq, Bool.and_eq_true] at h2
  exact h2

theorem cleanChars_quoteFree {l : List Char} (h : cleanChars l = true) :
    ∀ c ∈ l, c ≠ '"' :=
  fun c hc => (cleanChars_props h c hc).1

theorem escChars_id {l : List Char} (h : cleanChars l = true) : escChars l = l := by
  induction l with
  | nil => rfl
  | cons c cs ih =>
    obtain ⟨h1, h2⟩ := cleanChars_props h c (by simp)
    have h3 : cleanChars cs = true := by
      simp only [cleanChars, List.all_cons, Bool.and_eq_true] at h
      exact h.2
    simp [escChars, h1, h2, ih h3]

theorem notColonLead_append {l t : List Char} (h : notColonLead l = true)
    (h2 : notColonLead t = true) : notColonLead (l ++ t) = true := by
  cases l with
  | nil => simpa using h2
  | cons c cs => simpa [notColonLead] using h

/-! ### Decimal digits contain no quote, backslash or leading colon -/

theorem digit_ok (n : Nat) :
    Char.ofNat (48 + n % 10) ≠ '"' ∧ Char.ofNat (48 + n % 10) ≠ '\\' ∧
      Char.ofNat (48 + n % 10) ≠ ':' := by
  have h10 : n % 10 < 10 := Nat.mod_lt _ (by norm_num)
  set m := n % 10 with hm
  interval_cases m <;> refine ⟨by decide, by decide, by decide⟩

theorem natReprGo_props (fuel : Nat) :
    ∀ (n : Nat) (acc : List Char),
      (∀ c ∈ acc, c ≠ '"' ∧ c ≠ '\\' ∧ c ≠ ':') →
      ∀ c ∈ natReprGo fuel n acc, c ≠ '"' ∧ c ≠ '\\' ∧ c ≠ ':' := by
  induction fuel with
  | zero =>
    intro n acc hacc c hc
    simp only [natReprGo, List.mem_cons] at hc
    rcases hc with hc | hc
    · exact hc ▸ digit_ok n
    · exact hacc c hc
  | succ fuel ih =>
    intro n acc hacc c hc
    simp only [natReprGo] at hc
    by_cases hn : n < 10
    · rw [if_pos hn] at hc
      simp only [List.mem_cons] at hc
      rcases hc with hc | hc
      · exact hc ▸ digit_ok n
      · exact hacc c hc
    · rw [if_neg hn] at hc
      refine ih (n / 10) _ ?_ c hc
      intro d hd
      simp only [List.mem_cons] at hd
      rcases hd with hd | hd
      · exact hd ▸ digit_ok n
      · exact hacc d hd

theorem intReprChars_props (i : Int) :
    ∀ c ∈ intReprChars i, c ≠ '"' ∧ c ≠ '\\' := by
  intro c hc
  simp only [intReprChars] at hc
  by_cases hi : i < 0
  · rw [if_pos hi] at hc
    simp only [List.mem_cons] at hc
    rcases hc with hc | hc
    · subst hc; refine ⟨by decide, by decide⟩
    · have := natReprGo_props _ _ _ (by simp) c hc
      exact ⟨this.1, this.2.1⟩
  · rw [if_neg hi] at hc
    have := natReprGo_props _ _ _ (by simp) c hc
    exact ⟨this.1, this.2.1⟩

theorem intReprChars_quoteFree (i : Int) : ∀ c ∈ intReprChars i, c ≠ '"' :=
  fun c hc => (intReprChars_props i c hc).1

theorem trueData_quoteFree : ∀ c ∈ ("true".data : List Char), c ≠ '"' := by decide

theorem falseData_quoteFree : ∀ c ∈ ("false".data : List Char), c ≠ '"' := by decide

theorem nullData_quoteFree : ∀ c ∈ ("null".data : List Char), c ≠ '"' := by decide

/-! ### One-step destructuring of the cleanliness predicates -/

theorem cleanArr_cons {x : Json} {tl : JsonArr} (h : cleanArr (JsonArr.cons x tl) = true) :
    cleanJson x = true ∧ cleanArr tl = true := by
  have h2 : (cleanJson x && cleanArr tl) = true := h
  simp only [Bool.and_eq_true] at h2
  exact h2

theorem cleanObj_cons {k : String} {v : Json} {tl : JsonObj}
    (h : cleanObj (JsonObj.cons k v tl) = true) :
    k.data ≠ [] ∧ cleanChars k.data = true ∧ notColonLead k.data = true ∧
      cleanJson v = true ∧ cleanObj tl = true := by
  have h2 : (((((!k.data.isEmpty) && cleanChars k.data) && notColonLead k.data)
      && cleanJson v) && cleanObj tl) = true := h
  simp only [Bool.and_eq_true] at h2
  obtain ⟨⟨⟨⟨hk0, hk1⟩, hk2⟩, hv⟩, htl⟩ := h2
  exact ⟨by simpa using hk0, hk1, hk2, hv, htl⟩

/-! ### No spurious regex match can start at a quote placed before a clean
serialized value -/

theorem noLeadMatch_keyLead {k : List Char} (hk0 : k ≠ []) (hkn : notColonLead k = true)
    (rest : List Char) : noLeadMatch ('"' :: (k ++ '"' :: rest)) := by
  have h5 : takeToQuote ('"' :: (k ++ '"' :: rest)) = some ([], k ++ '"' :: rest) := by
    simp [takeToQuote]
  refine noLeadMatch_of_take h5 ?_
  cases k with
  | nil => exact absurd rfl hk0
  | cons c cs => simpa [notColonLead] using hkn

theorem noLead_objBody : ∀ (kvs : JsonObj), cleanObj kvs = true → ∀ tail : List Char,
    noLeadMatch tail → noLeadMatch (jsonObjBody kvs ++ tail)
  | JsonObj.nil, _, tail, ht => by simpa [jsonObjBody] using ht
  | JsonObj.cons k v JsonObj.nil, h, tail, ht => by
    obtain ⟨hk0, hk1, hk2, _, _⟩ := cleanObj_cons h
    have := noLeadMatch_keyLead hk0 hk2 (':' :: (jsonStringifyData v ++ tail))
    simpa [jsonObjBody, quoteChars, escChars_id hk1] using this
  | JsonObj.cons k v (JsonObj.cons k2 v2 tl), h, tail, ht => by
    obtain ⟨hk0, hk1, hk2, _, _⟩ := cleanObj_cons h
    have := noLeadMatch_keyLead hk0 hk2
      (':' :: (jsonStringifyData v ++ ',' :: (jsonObjBody (JsonObj.cons k2 v2 tl) ++ tail)))
    simpa [jsonObjBody, quoteChars, escChars_id hk1] using this

mutual
theorem noLead_json : ∀ (v : Json), cleanJson v = true → ∀ tail : List Char,
    noLeadMatch tail → noLeadMatch (jsonStringifyData v ++ tail)
  | Json.str s, h, tail, ht => by
    simp only [cleanJson, Bool.and_eq_true] at h
    obtain ⟨h1, h2⟩ := h
    have h5 : takeToQuote ('"' :: (s.data ++ '"' :: tail))
        = some ([], s.data ++ '"' :: tail) := by simp [takeToQuote]
    have h6 : notColonLead (s.data ++ '"' :: tail) = true := by
      cases hs : s.data with
      | nil => simp [notColonLead]
      | cons c cs =>
        rw [hs] at h2
        simpa [notColonLead] using h2
    have := noLeadMatch_of_take h5 h6
    simpa [jsonStringifyData, quoteChars, escChars_id h1] using this
  | Json.num n, _, tail, ht => by
    simp only [jsonStringifyData]
    exact noLeadMatch_quoteFree_append (intReprChars_quoteFree n) ht
  | Json.jbool b, _, tail, ht => by
    cases b
    · simpa [jsonStringifyData] using noLeadMatch_quoteFree_append falseData_quoteFree ht
    · simpa [jsonStringifyData] using noLeadMatch_quoteFree_append trueData_quoteFree ht
  | Json.jnull, _, tail, ht => by
    simpa [jsonStringifyData] using noLeadMatch_quoteFree_append nullData_quoteFree ht
  | Json.arr xs, h, tail, ht => by
    simp only [cleanJson] at h
    have h2 := noLead_arrBody xs h (']' :: tail) (noLeadMatch_cons (by decide) ht)
    have h3 := noLeadMatch_cons (c := '[') (by decide) h2
    simpa [jsonStringifyData] using h3
  | Json.obj kvs, h, tail, ht => by
    simp only [cleanJson] at h
    have h2 := noLead_objBody kvs h ('\x7d' :: tail) (noLeadMatch_cons (by decide) ht)
    have h3 := noLeadMatch_cons (c := '\x7b') (by decide) h2
    simpa [jsonStringifyData] using h3
theorem noLead_arrBody : ∀ (xs : JsonArr), cleanArr xs = true → ∀ tail : List Char,
    noLeadMatch tail → noLeadMatch (jsonArrBody xs ++ tail)
  | JsonArr.nil, _, tail, ht => by simpa [jsonArrBody] using ht
  | JsonArr.cons x JsonArr.nil, h, tail, ht => by
    simpa [jsonArrBody] using noLead_json x (cleanArr_cons h).1 tail ht
  | JsonArr.cons x (JsonArr.cons y tl), h, tail, ht => by
    have hrest := noLead_arrBody (JsonArr.cons y tl) (cleanArr_cons h).2 tail ht
    have hcomma := noLeadMatch_cons (c := ',') (by decide) hrest
    have := noLead_json x (cleanArr_cons h).1
      (',' :: (jsonArrBody (JsonArr.cons y tl) ++ tail)) hcomma
    simpa [jsonArrBody] using this
end

/-! ### The key-unquoting refinement: on clean values the regex replacement
turns `JSON.stringify` output into the spec's unquoted-key serialization -/

mutual
theorem strip_json : ∀ (v : Json), cleanJson v = true → ∀ suf : List Char,
    notColonLead suf = true → noLeadMatch suf →
    stripKeyQuotesData (jsonStringifyData v ++ suf)
      = gqlStringifyData v ++ stripKeyQuotesData suf
  | Json.str s, h, suf, hc, hn => by
    simp only [cleanJson, Bool.and_eq_true] at h
    obtain ⟨h1, _⟩ := h
    have hqf := cleanChars_quoteFree h1
    have heq : jsonStringifyData (Json.str s) ++ suf = '"' :: (s.data ++ '"' :: suf) := by
      simp [jsonStringifyData, quoteChars, escChars_id h1]
    rw [heq]
    have htk : takeToQuote (s.data ++ '"' :: suf) = some (s.data, suf) :=
      takeToQuote_quoteFree_append s.data suf hqf
    rw [stripData_nomatch (noLeadMatch_of_take htk hc)]
    rw [stripData_quoteFree_append _ hqf]
    rw [stripData_nomatch hn]
    simp [gqlStringifyData, quoteChars, escChars_id h1]
  | Json.num n, _, suf, _, _ => by
    simp only [jsonStringifyData, gqlStringifyData]
    exact stripData_quoteFree_append _ (intReprChars_quoteFree n)
  | Json.jbool b, _, suf, _, _ => by
    cases b
    · simpa [jsonStringifyData, gqlStringifyData] using
        stripData_quoteFree_append (l := "false".data) suf falseData_quoteFree
    · simpa [jsonStringifyData, gqlStringifyData] using
        stripData_quoteFree_append (l := "true".data) suf trueData_quoteFree
  | Json.jnull, _, suf, _, _ => by
    simpa [jsonStringifyData, gqlStringifyData] using
      stripData_quoteFree_append (l := "null".data) suf nullData_quoteFree
  | Json.arr xs, h, suf, hc, hn => by
    simp only [cleanJson] at h
    have hstep := strip_arrBody xs h (']' :: suf) (by simp [notColonLead])
      (noLeadMatch_cons (by decide) hn)
    have heq : jsonStringifyData (Json.arr xs) ++ suf
        = '[' :: (jsonArrBody xs ++ ']' :: suf) := by simp [jsonStringifyData]
    rw [heq, stripData_cons _ (by decide), hstep, stripData_cons _ (by decide)]
    simp [gqlStringifyData]
  | Json.obj kvs, h, suf, hc, hn => by
    simp only [cleanJson] at h
    have hstep := strip_objBody kvs h ('\x7d' :: suf) (by simp [notColonLead])
      (noLeadMatch_cons (by decide) hn)
    have heq : jsonStringifyData (Json.obj kvs) ++ suf
        = '\x7b' :: (jsonObjBody kvs ++ '\x7d' :: suf) := by simp [jsonStringifyData]
    rw [heq, stripData_cons _ (by decide), hstep, stripData_cons _ (by decide)]
    simp [gqlStringifyData]
theorem strip_arrBody : ∀ (xs : JsonArr), cleanArr xs = true → ∀ suf : List Char,
    notColonLead suf = true → noLeadMatch suf →
    stripKeyQuotesData (jsonArrBody xs ++ suf)
      = gqlArrBody xs ++ stripKeyQuotesData suf
  | JsonArr.nil, _, suf, _, _ => by simp [jsonArrBody, gqlArrBody]
  | JsonArr.cons x JsonArr.nil, h, suf, hc, hn => by
    simpa [jsonArrBody, gqlArrBody] using strip_json x (cleanArr_cons h).1 suf hc hn
  | JsonArr.cons x (JsonArr.cons y tl), h, suf, hc, hn => by
    have hrest_nl := noLead_arrBody (JsonArr.cons y tl) (cleanArr_cons h).2 suf hn
    have hx := strip_json x (cleanArr_cons h).1
      (',' :: (jsonArrBody (JsonArr.cons y tl) ++ suf))
      (by simp [notColonLead]) (noLeadMatch_cons (by decide) hrest_nl)
    have hrest := strip_arrBody (JsonArr.cons y tl) (cleanArr_cons h).2 suf hc hn
    have heq : jsonArrBody (JsonArr.cons x (JsonArr.cons y tl)) ++ suf
        = jsonStringifyData x ++ (',' :: (jsonArrBody (JsonArr.cons y tl) ++ suf)) := by
      simp [jsonArrBody]
    rw [heq, hx, stripData_cons _ (by decide), hrest]
    simp [gqlArrBody]
theorem strip_objBody : ∀ (kvs : JsonObj), cleanObj kvs = true → ∀ suf : List Char,
    notColonLead suf = true → noLeadMatch suf →
    stripKeyQuotesData (jsonObjBody kvs ++ suf)
      = gqlObjBody kvs ++ stripKeyQuotesData suf
  | JsonObj.nil, _, suf, _, _ => by simp [jsonObjBody, gqlObjBody]
  | JsonObj.cons k v JsonObj.nil, h, suf, hc, hn => by
    obtain ⟨hkne, hk1, _, hv, _⟩ := cleanObj_cons h
    have hkq := cleanChars_quoteFree hk1
    have heq : jsonObjBody (JsonObj.cons k v JsonObj.nil) ++ suf
        = '"' :: (k.data ++ '"' :: ':' :: (jsonStringifyData v ++ suf)) := by
      simp [jsonObjBody, quoteChars, escChars_id hk1]
    have htk : takeToQuote (k.data ++ '"' :: ':' :: (jsonStringifyData v ++ suf))
        = some (k.data, ':' :: (jsonStringifyData v ++ suf)) :=
      takeToQuote_quoteFree_append _ _ hkq
    rw [heq, stripData_match htk hkne, strip_json v hv suf hc hn]
    simp [gqlObjBody]
  | JsonObj.cons k v (JsonObj.cons k2 v2 tl), h, suf, hc, hn => by
    obtain ⟨hkne, hk1, _, hv, htl⟩ := cleanObj_cons h
    have hkq := cleanChars_quoteFree hk1
    have hrest_nl := noLead_objBody (JsonObj.cons k2 v2 tl) htl suf hn
    have hv2 := strip_json v hv (',' :: (jsonObjBody (JsonObj.cons k2 v2 tl) ++ suf))
      (by simp [notColonLead]) (noLeadMatch_cons (by decide) hrest_nl)
    have hrest := strip_objBody (JsonObj.cons k2 v2 tl) htl suf hc hn
    have heq : jsonObjBody (JsonObj.cons k v (JsonObj.cons k2 v2 tl)) ++ suf
        = '"' :: (k.data ++ '"' :: ':'
            :: (jsonStringifyData v ++ (',' :: (jsonObjBody (JsonObj.cons k2 v2 tl) ++ suf)))) := by
      simp [jsonObjBody, quoteChars, escChars_id hk1]
    have htk : takeToQuote (k.data ++ '"' :: ':'
          :: (jsonStringifyData v ++ (',' :: (jsonObjBody (JsonObj.cons k2 v2 tl) ++ suf))))
        = some (k.data, ':'
            :: (jsonStringifyData v ++ (',' :: (jsonObjBody (JsonObj.cons k2 v2 tl) ++ suf)))) :=
      takeToQuote_quoteFree_append _ _ hkq
    rw [heq, stripData_match htk hkne, hv2, stripData_cons _ (by decide), hrest]
    simp [gqlObjBody]
end

/-- On clean values, the source's regex-based key unquoting agrees with the
spec's unquoted-key serializer. -/
theorem stripKeyQuotes_gql {v : Json} (h : cleanJson v = true) :
    stripKeyQuotes (jsonStringify v) = gqlStringify v := by
  apply strExt
  have := strip_json v h [] (by simp [notColonLead]) noLeadMatch_nil
  simpa [stripKeyQuotes, jsonStringify, gqlStringify, stripData_nil] using this

/-! ### Substring facts -/

theorem leadsWith_append (p rest : List Char) : leadsWith p (p ++ rest) = true := by
  induction p with
  | nil => rfl
  | cons c cs ih => simp [leadsWith, ih]

theorem hasSubstrData_nil_pat (t : List Char) : hasSubstrData t [] = true := by
  cases t <;> simp [hasSubstrData, leadsWith]

theorem hasSubstrData_here (pat post : List Char) :
    hasSubstrData (pat ++ post) pat = true := by
  cases pat with
  | nil => exact hasSubstrData_nil_pat post
  | cons p ps =>
    have := leadsWith_append (p :: ps) post
    simp only [List.cons_append] at this ⊢
    simp [hasSubstrData, this]

theorem hasSubstrData_append (pre pat post : List Char) :
    hasSubstrData (pre ++ (pat ++ post)) pat = true := by
  induction pre with
  | nil => simpa using hasSubstrData_here pat post
  | cons c cs ih => simp [hasSubstrData, ih]

/-! ### Shape of `collectionName` -/

theorem collectionName_no_params (E : String) (f : Option JsonObj)
    (p : Option Pagination) (s : Option SortSpec)
    (h : (f.isSome || p.isSome || sortTruthy s) = false) :
    collectionName E f p s = E := by
  simp only [Bool.or_eq_false_iff] at h
  obtain ⟨⟨hf, hp⟩, hs⟩ := h
  have hf2 : f = none := by cases f with
    | none => rfl
    | some _ => simp at hf
  have hp2 : p = none := by cases p with
    | none => rfl
    | some _ => simp at hp
  subst hf2; subst hp2
  apply strExt
  cases s with
  | none => simp [collectionName, sortTruthy, filterClause, paginationClause,
      sortClause, dataApp]
  | some s' => simp [collectionName, filterClause, paginationClause, sortClause,
      hs, dataApp]

theorem collectionName_params (E : String) (f : Option JsonObj)
    (p : Option Pagination) (s : Option SortSpec)
    (h : (f.isSome || p.isSome || sortTruthy s) = true) :
    ∃ inner : String, collectionName E f p s = E ++ "(" ++ inner ++ ")" := by
  refine ⟨filterClause f ++ paginationClause p ++ sortClause s, ?_⟩
  apply strExt
  simp [collectionName, h, dataApp]

/-! ## Claim theorems -/

/-- Claim C1, counterexample: the claim asserts the `(id: <id>)` clause is
emitted for *every* supplied id, but `entryName` tests JavaScript truthiness
(`id ? … : ""`), and `0` is falsy: `entry("shops", ["name"], 0)` contains no
`(id: 0)` clause at all. -/
theorem entry_id_zero_counterexample :
    hasSubstr (entry "shops" ["name"] (some 0)) "(id: 0)" = false ∧
    entry "shops" ["name"] (some 0)
      = "shops \x7b data \x7b id attributes \x7b name \x7d \x7d \x7d" := by
  constructor <;> decide

/-- Claim C1 (amended): for every *nonzero* supplied id, `entry` emits
`(id: <id>)` immediately after the entity name with the id value serialized
verbatim and without bounds checking, and when no id is supplied the output
contains no parenthesized clause after the entity name (a supplied id of `0`
is treated as absent). -/
theorem entry_id_clause :
    (∀ (i : Int), i ≠ 0 → ∀ (E : String) (F : List String),
      entry E F (some i) = E ++ "(id: " ++ intRepr i ++ ")" ++ " \x7b " ++ data F ++ " \x7d") ∧
    (∀ (E : String) (F : List String),
      entry E F none = E ++ " \x7b " ++ data F ++ " \x7d") := by
  constructor
  · intro i hi E F
    apply strExt
    simp [entry, entryName, hi, dataApp]
  · intro E F
    apply strExt
    simp [entry, entryName, dataApp]

/-- Claim C1, witness: `entry("shops", ["name"], 7)` emits `(id: 7)` right
after the entity name. -/
theorem entry_id_clause_witness :
    entry "shops" ["name"] (some 7)
      = "shops(id: 7) \x7b data \x7b id attributes \x7b name \x7d \x7d \x7d" := by
  rw [entry_id_clause.1 7 (by decide) "shops" ["name"]]
  decide

/-- Claim C2, counterexample: `JSON.stringify` emits no whitespace, so the
clause produced for the filter `{name: {eq: "shop"}}` is the compact
`filters: {name:{eq:"shop"}}` — the spaced form `filters: {name: {eq: "shop"}}`
asserted by the claim does not occur in the output.  Moreover a string value
containing the two characters `":` does *not* retain its quotes: the filter
`{k: "x\":y"}` serializes to `{"k":"x\":y"}` and the regex also rewrites the
`"x\":` inside the value, producing `{k:x\:y"}`. -/
theorem collection_filter_serialization_counterexample :
    hasSubstr (collection "shops" ["name"] (some exFilter) none none none)
        "filters: \x7bname: \x7beq: \"shop\"\x7d\x7d" = false ∧
    collection "shops" ["name"] (some exFilter) none none none
      = "shops(filters: \x7bname:\x7beq:\"shop\"\x7d\x7d, ) \x7b data \x7b id attributes \x7b name \x7d \x7d  \x7d" ∧
    collection "shops" ["name"] (some evilFilter) none none none
      = "shops(filters: \x7bk:x\\:y\"\x7d, ) \x7b data \x7b id attributes \x7b name \x7d \x7d  \x7d" := by
  refine ⟨by decide, by decide, by decide⟩

/-- Claim C2 (amended): filter, pagination, and sort arguments are serialized
compactly (no whitespace); for arguments in which every object key is
nonempty, no key or string leaf contains `"` or `\`, and none starts with
`:`, all JSON object-key quotes are removed while string values retain their
quotes (`gqlStringify` is exactly the serializer that emits unquoted keys and
quoted string values); in particular the filter `{name: {eq: "shop"}}`
produces the clause `filters: {name:{eq:"shop"}}`. -/
theorem collection_key_unquoting (E : String) (F : List String) (f : JsonObj)
    (p : Pagination) (s : SortSpec)
    (hf : cleanObj f = true) (hp : cleanObj (pagToObj p) = true)
    (hs : cleanJson (sortToJson s) = true) (hst : sortTruthy (some s) = true) :
    collection E F (some f) (some s) (some p) none =
      E ++ "(" ++ "filters: " ++ gqlStringify (Json.obj f) ++ ", "
        ++ "pagination: " ++ gqlStringify (Json.obj (pagToObj p)) ++ ", "
        ++ "sort: " ++ gqlStringify (sortToJson s) ++ ", " ++ ")"
        ++ " \x7b " ++ data F ++ " " ++ " \x7d" := by
  have h1 : cleanJson (Json.obj f) = true := hf
  have h2 : cleanJson (Json.obj (pagToObj p)) = true := hp
  have g1 := stripKeyQuotes_gql h1
  have g2 := stripKeyQuotes_gql h2
  have g3 := stripKeyQuotes_gql hs
  apply strExt
  simp [collection, collectionName, filterClause, paginationClause, sortClause,
    hst, g1, g2, g3, dataApp]

/-- Claim C2, witness: the spec's example filter, a numeric pagination and a
string sort, all clean, serialize with keys unquoted and the string leaf
value still quoted. -/
theorem collection_key_unquoting_witness :
    collection "shops" ["name"] (some exFilter) (some (Sum.inl "name:asc"))
        (some [("page", 1)]) none
      = "shops(filters: \x7bname:\x7beq:\"shop\"\x7d\x7d, pagination: \x7bpage:1\x7d, sort: \"name:asc\", ) \x7b data \x7b id attributes \x7b name \x7d \x7d  \x7d" := by
  rw [collection_key_unquoting "shops" ["name"] exFilter [("page", 1)]
    (Sum.inl "name:asc") (by decide) (by decide) (by decide) (by decide)]
  decide

/-- Claim C3: the parenthesized parameter clause is emitted only if at least
one of filter/sort/pagination is supplied (a call with none of them — and no
pagination-response flags — produces no parenthesized clause and no meta
block), and present parameters appear in the fixed order filters, pagination,
sort, each contributing `<key>: <value>, ` with a trailing comma. -/
theorem collection_param_order :
    (∀ (E : String) (F : List String),
      collection E F none none none none
        = E ++ " \x7b " ++ data F ++ " " ++ " \x7d") ∧
    (∀ (E : String) (F : List String) (f : JsonObj) (p : Pagination) (s : SortSpec),
      sortTruthy (some s) = true →
      collection E F (some f) (some s) (some p) none =
        E ++ "(" ++ "filters: " ++ stripKeyQuotes (jsonStringify (Json.obj f)) ++ ", "
          ++ "pagination: " ++ stripKeyQuotes (jsonStringify (Json.obj (pagToObj p))) ++ ", "
          ++ "sort: " ++ stripKeyQuotes (jsonStringify (sortToJson s)) ++ ", " ++ ")"
          ++ " \x7b " ++ data F ++ " " ++ " \x7d") := by
  constructor
  · intro E F
    apply strExt
    simp [collection, collectionName, filterClause, paginationClause, sortClause,
      sortTruthy, dataApp]
  · intro E F f p s hst
    apply strExt
    simp [collection, collectionName, filterClause, paginationClause, sortClause,
      hst, dataApp]

/-- Claim C3, witness: all three parameters supplied appear in the fixed
order filters, pagination, sort, each with a trailing comma. -/
theorem collection_param_order_witness :
    collection "shops" ["name"] (some exFilter) (some (Sum.inl "id:asc"))
        (some [("page", 2)]) none
      = "shops(filters: \x7bname:\x7beq:\"shop\"\x7d\x7d, pagination: \x7bpage:2\x7d, sort: \"id:asc\", ) \x7b data \x7b id attributes \x7b name \x7d \x7d  \x7d" := by
  rw [collection_param_order.2 "shops" ["name"] exFilter [("page", 2)]
    (Sum.inl "id:asc") (by decide)]
  decide

/-- Claim C4: when pagination-response flags are supplied, `collection`
appends `meta { pagination { <flag names> } }` after the data block with
exactly the names of true-valued flags, space-joined, in insertion order
(false-valued flags omitted); when the flags are omitted no metadata block is
emitted.  The spec's example `{total: true, pageCount: false}` yields
`meta { pagination { total } }`. -/
theorem collection_meta_block :
    (∀ (E : String) (F : List String) (pr : PaginationResponse),
      collection E F none none none (some pr)
        = E ++ " \x7b " ++ data F ++ " "
          ++ ("meta \x7b pagination \x7b "
              ++ String.intercalate " " (((pr.filter (fun kv => kv.2)).map (fun kv => kv.1)))
              ++ " \x7d \x7d")
          ++ " \x7d") ∧
    (∀ (E : String) (F : List String),
      collection E F none none none none
        = E ++ " \x7b " ++ data F ++ " " ++ " \x7d") ∧
    collection "shops" ["name"] none none none (some exFlags)
      = "shops \x7b data \x7b id attributes \x7b name \x7d \x7d meta \x7b pagination \x7b total \x7d \x7d \x7d" := by
  refine ⟨?_, ?_, by decide⟩
  · intro E F pr
    apply strExt
    simp [collection, collectionName, filterClause, paginationClause, sortClause,
      sortTruthy, dataApp]
  · intro E F
    apply strExt
    simp [collection, collectionName, filterClause, paginationClause, sortClause,
      sortTruthy, dataApp]

/-- Claim C5: for every entity name, non-empty field list and optional id,
the output of `entry` contains exactly the substring
`data { id attributes { <fields joined by space> } }` (field order preserved,
duplicates kept by `String.intercalate`), and the whole output has the shape
`<entityName>(id: <id>)? { data { id attributes { … } } }`. -/
theorem entry_data_block (E : String) (F : List String) (oid : Option Int)
    (hF : F ≠ []) :
    hasSubstr (entry E F oid)
        ("data \x7b id attributes \x7b " ++ String.intercalate " " F ++ " \x7d \x7d") = true ∧
    ∃ idPart : String,
      (idPart = "" ∨ ∃ i : Int, idPart = "(id: " ++ intRepr i ++ ")") ∧
      entry E F oid = E ++ idPart ++ " \x7b "
        ++ ("data \x7b id attributes \x7b " ++ String.intercalate " " F ++ " \x7d \x7d")
        ++ " \x7d" := by
  constructor
  · show hasSubstr (entry E F oid) (data F) = true
    have h := hasSubstrData_append ((entryName E oid).data ++ (" \x7b " : String).data)
      (data F).data ((" \x7d" : String).data)
    simpa [hasSubstr, entry, dataApp, List.append_assoc] using h
  · cases oid with
    | none =>
      refine ⟨"", Or.inl rfl, ?_⟩
      apply strExt
      simp [entry, entryName, data, dataApp]
    | some i =>
      by_cases hi : i = 0
      · refine ⟨"", Or.inl rfl, ?_⟩
        subst hi
        apply strExt
        simp [entry, entryName, data, dataApp]
      · refine ⟨"(id: " ++ intRepr i ++ ")", Or.inr ⟨i, rfl⟩, ?_⟩
        apply strExt
        simp [entry, entryName, data, hi, dataApp]

/-- Claim C5, witness: a duplicated field list is joined in order without
deduplication and the data block appears verbatim. -/
theorem entry_data_block_witness :
    hasSubstr (entry "shops" ["a", "b", "a"] (some 7))
        ("data \x7b id attributes \x7b " ++ String.intercalate " " ["a", "b", "a"]
          ++ " \x7d \x7d") = true :=
  (entry_data_block "shops" ["a", "b", "a"] (some 7) (by decide)).1

/-- Claim C6, counterexample: when no meta block is emitted the template
`` ` { ${data} ${""} }` `` leaves *two* spaces between the data block and the
closing brace, so the output does not match the claimed production
`… DataBlock (" " MetaBlock)? " }"`, under which exactly one space would
separate them. -/
theorem collection_grammar_counterexample :
    collection "shops" ["name"] none none none none
      = "shops \x7b data \x7b id attributes \x7b name \x7d \x7d  \x7d" ∧
    collection "shops" ["name"] none none none none
      ≠ "shops \x7b data \x7b id attributes \x7b name \x7d \x7d \x7d" := by
  constructor <;> decide

/-- Claim C6 (amended): every string produced by `collection` matches
`Name ("(" ParamList ")")? " { " DataBlock " " MetaBlock? " }"` — the
separator space before the (possibly empty) meta slot is always emitted, so
when no meta block is present two spaces separate the data block from the
closing brace. -/
theorem collection_grammar (E : String) (F : List String) (f : Option JsonObj)
    (s : Option SortSpec) (p : Option Pagination) (pr : Option PaginationResponse) :
    ∃ ps ms : String,
      collection E F f s p pr
        = E ++ ps ++ " \x7b " ++ data F ++ " " ++ ms ++ " \x7d" ∧
      (ps = "" ∨ ∃ inner, ps = "(" ++ inner ++ ")") ∧
      (ms = "" ∨ ∃ flags, ms = "meta \x7b pagination \x7b " ++ flags ++ " \x7d \x7d") := by
  cases hbr : (f.isSome || p.isSome || sortTruthy s) with
  | false =>
    have hname := collectionName_no_params E f p s hbr
    cases pr with
    | none =>
      exact ⟨"", "", by apply strExt; simp [collection, hname, dataApp],
        Or.inl rfl, Or.inl rfl⟩
    | some prv =>
      refine ⟨"", "meta \x7b pagination \x7b "
        ++ String.intercalate " " (((prv.filter (fun kv => kv.2)).map (fun kv => kv.1)))
        ++ " \x7d \x7d", ?_, Or.inl rfl, Or.inr ⟨_, rfl⟩⟩
      apply strExt
      simp [collection, hname, dataApp]
  | true =>
    obtain ⟨inner, hname⟩ := collectionName_params E f p s hbr
    cases pr with
    | none =>
      exact ⟨"(" ++ inner ++ ")", "", by apply strExt; simp [collection, hname, dataApp],
        Or.inr ⟨inner, rfl⟩, Or.inl rfl⟩
    | some prv =>
      refine ⟨"(" ++ inner ++ ")", "meta \x7b pagination \x7b "
        ++ String.intercalate " " (((prv.filter (fun kv => kv.2)).map (fun kv => kv.1)))
        ++ " \x7d \x7d", ?_, Or.inr ⟨inner, rfl⟩, Or.inr ⟨_, rfl⟩⟩
      apply strExt
      simp [collection, hname, dataApp]

/-- Claim C7: `query` is pure string concatenation — for every string,
including the empty string, it returns `query { <content> }` with no
validation of the content. -/
theorem query_wraps (X : String) : query X = "query \x7b " ++ X ++ " \x7d" := rfl

/-- Claim C8: the builders are total functions — every call returns a string,
and malformed or contradictory inputs (negative id, empty entity name, empty
field list) are serialized verbatim into the output without validation. -/
theorem builders_total :
    (∀ (E : String) (F : List String) (f : Option JsonObj) (s : Option SortSpec)
        (p : Option Pagination) (pr : Option PaginationResponse)
        (oid : Option Int) (c : String),
      ∃ o1 o2 o3 : String,
        query c = o1 ∧ entry E F oid = o2 ∧ collection E F f s p pr = o3) ∧
    query "" = "query \x7b  \x7d" ∧
    entry "" [] (some (-7))
      = "(id: -7) \x7b data \x7b id attributes \x7b  \x7d \x7d \x7d" ∧
    collection "" [] none none none none
      = " \x7b data \x7b id attributes \x7b  \x7d \x7d  \x7d" := by
  refine ⟨fun E F f s p pr oid c => ⟨_, _, _, rfl, rfl, rfl⟩, by decide, by decide, by decide⟩

/-- Claim C9: supplying the id value `0` to `entry` omits the `(id: 0)`
clause and yields output byte-identical to the same call with no id, because
the clause guard tests JavaScript truthiness rather than presence. -/
theorem entry_id_zero_like_none (E : String) (F : List String) :
    entry E F (some 0) = entry E F none := by
  simp [entry, entryName]

/-- Claim C10: supplying `sort` as the empty string emits no `sort:` clause
and does not by itself trigger the parenthesized clause: the output equals
the same call with sort omitted, because both the clause guard and the
parenthesis guard test truthiness. -/
theorem collection_empty_sort_like_none (E : String) (F : List String)
    (f : Option JsonObj) (p : Option Pagination) (pr : Option PaginationResponse) :
    collection E F f (some (Sum.inl "")) p pr = collection E F f none p pr := by
  simp [collection, collectionName, sortClause, sortTruthy]

end QueryUtils
